import Mathlib

/-!
Shallow embedding of `src/inventory_system.py` (Inventory Management System).

The script keeps a module-level dictionary `stock_data : Dict[str, int]` and
exposes `add_item`, `remove_item`, `get_qty`, `load_data`, `save_data`,
`print_data` and `check_low_items`.  We model:

* Python dictionaries with string keys as association lists `List (String × Int)`
  with the usual no-duplicate-keys property taken as a hypothesis where needed
  (a real Python `dict` never has duplicate keys);
* dynamically typed arguments and JSON values as the inductive `PyVal`;
* Python's `TypeError` / `ValueError` as `PyErr`;
* each operation as a pure function returning its result (an `Except` value:
  `Except.error` models an exception propagating to the caller) together with
  the `stock_data` state after the call;
* the fallible file-read step of `load_data` as a `ReadResult` argument: the
  three `except` branches of the source (`FileNotFoundError`,
  `json.JSONDecodeError`, `OSError`) each `return` without touching
  `stock_data`, and `ReadResult.ok v` carries the parsed JSON value;
* `save_data` as the JSON value written to the file (`json.dump` with
  `sort_keys=True`; the `OSError` branch writes nothing and leaves the state
  unchanged, which is outside the round-trip property).

`logging` calls, the `datetime` timestamps appended to the optional `logs`
list in `add_item`, `print_data` and the `demo_operations`/`main` entry points
are console/side-channel I/O that never affects `stock_data` and are not
modelled.
-/

namespace Inventory

/-- A dynamically typed Python / JSON value, as far as the script can observe
one: strings, ints, floats (as rationals; `NaN`/`inf` are not representable,
and nothing in the claims depends on them), bools, `None`, lists and dicts. -/
inductive PyVal where
  | str (s : String)
  | int (n : Int)
  | float (q : Rat)
  | bool (b : Bool)
  | none
  | list (xs : List PyVal)
  | dict (entries : List (PyVal × PyVal))

/-- The two exception kinds the script raises for invalid arguments
(`TypeError` and `ValueError`); the spec groups both as `InvalidArgument`. -/
inductive PyErr where
  | typeError (msg : String)
  | valueError (msg : String)

/-- The in-memory `stock_data` dictionary: insertion-ordered key/value pairs. -/
abbrev Stock := List (String × Int)

/-- `d[k]` / `d.get(k)`: value at the first occurrence of key `k`. -/
def dictGet : Stock → String → Option Int
  | [], _ => Option.none
  | (k', v) :: rest, k => if k' = k then some v else dictGet rest k

/-- `d.get(k, dflt)`. -/
def dictGetD (s : Stock) (k : String) (dflt : Int) : Int :=
  (dictGet s k).getD dflt

/-- `d[k] = v`: update in place if the key exists, else append at the end
(Python dicts preserve insertion order). -/
def dictSet : Stock → String → Int → Stock
  | [], k, v => [(k, v)]
  | (k', v') :: rest, k, v =>
    if k' = k then (k, v) :: rest else (k', v') :: dictSet rest k v

/-- `del d[k]`. -/
def dictDel : Stock → String → Stock
  | [], _ => []
  | (k', v') :: rest, k => if k' = k then rest else (k', v') :: dictDel rest k

/-- Keys of the dictionary, in order. -/
def keys (s : Stock) : List String := s.map Prod.fst

/-- A genuine Python dict has no duplicate keys. -/
abbrev NodupKeys (s : Stock) : Prop := (keys s).Nodup

/-- `isinstance(v, str)`. -/
def isPyStr : PyVal → Bool
  | .str _ => true
  | _ => false

/-- `isinstance(v, int)`.  In Python `bool` is a subclass of `int`, so `True`
and `False` satisfy this check. -/
def isPyInt : PyVal → Bool
  | .int _ => true
  | .bool _ => true
  | _ => false

/-- The string payload (only used under an `isPyStr` guard). -/
def pyStr : PyVal → String
  | .str s => s
  | _ => ""

/-- The integer payload of a value satisfying `isPyInt` (`True` is `1`,
`False` is `0`); only used under an `isPyInt` guard. -/
def pyIntVal : PyVal → Int
  | .int n => n
  | .bool b => if b then 1 else 0
  | _ => 0

/-- Value of a nonempty digit string, most significant digit first
(accumulator form). -/
def digitsValAux : List Char → Nat → Option Nat
  | [], acc => some acc
  | c :: rest, acc =>
    if c.isDigit then digitsValAux rest (acc * 10 + (c.toNat - 48))
    else Option.none

/-- Strip leading and trailing whitespace from a character list. -/
def trimChars (cs : List Char) : List Char :=
  ((cs.dropWhile Char.isWhitespace).reverse.dropWhile Char.isWhitespace).reverse

/-- `int(s)` for a string `s`: optional sign followed by decimal digits, after
stripping surrounding whitespace.  (Python additionally accepts underscores
between digits and non-ASCII digits; nothing in the claims depends on those.) -/
def pyIntOfString (t : String) : Option Int :=
  match trimChars t.toList with
  | [] => Option.none
  | '-' :: rest =>
    if rest = [] then Option.none
    else (digitsValAux rest 0).map (fun n => -(n : Int))
  | '+' :: rest =>
    if rest = [] then Option.none
    else (digitsValAux rest 0).map (fun n => (n : Int))
  | cs => (digitsValAux cs 0).map (fun n => (n : Int))

/-- Python's `int(val)` coercion as used by `load_data`:
`some n` when the call succeeds with result `n`, `Option.none` when it raises
`TypeError` or `ValueError`.  Floats truncate toward zero (`int(2.5) == 2`,
`int(-2.5) == -2`), bools map to `0`/`1`, numeric strings parse, and `None`,
lists and dicts raise. -/
def pyInt : PyVal → Option Int
  | .int n => some n
  | .bool b => some (if b then 1 else 0)
  | .float q => some (q.num.tdiv (q.den : Int))
  | .str t => pyIntOfString t
  | .list _ => Option.none
  | .dict _ => Option.none
  | .none => Option.none

/-- `add_item(item, qty)` (source lines 20-33): validate, then
`stock_data[item] = stock_data.get(item, 0) + qty`.  Returns the call outcome
and the `stock_data` state after the call. -/
def add_item (s : Stock) (item qty : PyVal) : Except PyErr Unit × Stock :=
  match item with
  | .str it =>
    if it = "" then (.error (.typeError "Item must be a non-empty string."), s)
    else if isPyInt qty = false then
      (.error (.typeError "Quantity must be an integer."), s)
    else if pyIntVal qty < 0 then
      (.error (.valueError "Quantity must be non-negative."), s)
    else (.ok (), dictSet s it (dictGetD s it 0 + pyIntVal qty))
  | _ => (.error (.typeError "Item must be a non-empty string."), s)

/-- `remove_item(item, qty)` (source lines 36-54): validate; absent item
returns `False`; `qty >= stock_data[item]` deletes the entry, otherwise
`stock_data[item] -= qty`; returns `True` on success. -/
def remove_item (s : Stock) (item qty : PyVal) : Except PyErr Bool × Stock :=
  match item with
  | .str it =>
    if it = "" then (.error (.typeError "Item must be a non-empty string."), s)
    else if isPyInt qty = false then
      (.error (.typeError "Quantity must be an integer."), s)
    else if pyIntVal qty < 0 then
      (.error (.valueError "Quantity must be non-negative."), s)
    else
      match dictGet s it with
      | Option.none => (.ok false, s)
      | some v =>
        if v ≤ pyIntVal qty then (.ok true, dictDel s it)
        else (.ok true, dictSet s it (v - pyIntVal qty))
  | _ => (.error (.typeError "Item must be a non-empty string."), s)

/-- `get_qty(item)` (source lines 57-61): validate, then
`stock_data.get(item, 0)`.  Never mutates the state. -/
def get_qty (s : Stock) (item : PyVal) : Except PyErr Int :=
  match item with
  | .str it =>
    if it = "" then .error (.typeError "Item must be a non-empty string.")
    else .ok (dictGetD s it 0)
  | _ => .error (.typeError "Item must be a non-empty string.")

/-- Outcome of `open` + `json.load` inside `load_data`: the three `except`
branches of the source, or the parsed JSON value. -/
inductive ReadResult where
  | fileNotFound
  | jsonError
  | osError
  | ok (v : PyVal)

/-- One iteration of the sanitization loop of `load_data` (source lines
85-105): skip non-`str` keys, skip values on which `int(val)` raises, skip
negative quantities, otherwise `sanitized[key] = quantity`. -/
def sanitizeStep (acc : Stock) (kv : PyVal × PyVal) : Stock :=
  match kv.1 with
  | .str ks =>
    match pyInt kv.2 with
    | some q => if q < 0 then acc else dictSet acc ks q
    | Option.none => acc
  | _ => acc

/-- The sanitization loop of `load_data`: fold the entries of the raw dict
into a fresh `sanitized` dict. -/
def sanitize (entries : List (PyVal × PyVal)) : Stock :=
  entries.foldl sanitizeStep []

/-- `load_data(file_path)` (source lines 64-110).  Every `except` branch and
the not-a-dict branch `return` without touching `stock_data`; on success the
state is replaced (`stock_data.clear(); stock_data.update(sanitized)`). -/
def load_data (s : Stock) (r : ReadResult) : Stock :=
  match r with
  | .fileNotFound => s
  | .jsonError => s
  | .osError => s
  | .ok v =>
    match v with
    | .dict entries => sanitize entries
    | _ => s

/-- Lexicographic comparison of strings by code points, as Python's `sorted`
orders `str` keys. -/
def strLeChars : List Char → List Char → Bool
  | [], _ => true
  | _ :: _, [] => false
  | c :: cs, d :: ds =>
    if c.toNat < d.toNat then true
    else if d.toNat < c.toNat then false
    else strLeChars cs ds

/-- `a <= b` on strings, by code points. -/
def strLe (a b : String) : Prop := strLeChars a.toList b.toList = true

instance : DecidableRel strLe := fun a b => by
  unfold strLe
  infer_instance

/-- `save_data(file_path)` (source lines 113-120): the JSON object written by
`json.dump(stock_data, file, indent=2, sort_keys=True)` — the entries of the
stock map with keys sorted lexicographically. -/
def save_data (s : Stock) : PyVal :=
  .dict ((List.insertionSort (fun a b : String × Int => strLe a.1 b.1) s).map
    (fun p => (.str p.1, .int p.2)))

/-- `check_low_items(threshold)` (source lines 130-136): validate, then
`[item for item, qty in stock_data.items() if qty < threshold]`.  Never
mutates the state; we return it to state that explicitly. -/
def check_low_items (s : Stock) (threshold : PyVal) :
    Except PyErr (List String) × Stock :=
  if isPyInt threshold = false then
    (.error (.typeError "Threshold must be an integer."), s)
  else if pyIntVal threshold < 0 then
    (.error (.valueError "Threshold must be non-negative."), s)
  else
    (.ok ((s.filter (fun p => p.2 < pyIntVal threshold)).map Prod.fst), s)

/-- Run a sequence of `add_item` calls with string items and int quantities. -/
def addAll (s : Stock) (ops : List (String × Int)) : Stock :=
  ops.foldl (fun st op => (add_item st (.str op.1) (.int op.2)).2) s

/-- The sum of the quantities added for `item` by a sequence of add calls. -/
def sumFor (item : String) : List (String × Int) → Int
  | [] => 0
  | (i, q) :: rest => (if i = item then q else 0) + sumFor item rest

/-- Every quantity in the map is non-negative. -/
abbrev NonnegStock (s : Stock) : Prop := ∀ p ∈ s, 0 ≤ p.2

/-- A rational given directly in lowest terms; used to write concrete float
literals whose fields reduce definitionally. -/
def ratMk (n : Int) (d : Nat) (h1 : d ≠ 0) (h2 : n.natAbs.Coprime d) : Rat :=
  ⟨n, d, h1, h2⟩

/-- `isinstance(v, dict)`, the top-level check of `load_data`. -/
def isPyDict : PyVal → Bool
  | .dict _ => true
  | _ => false

/-- The per-entry decision the sanitization loop of `load_data` implements:
an entry is kept exactly when its key is a `str` (possibly empty) and
`int(val)` succeeds with a non-negative result. -/
def sanitizeKeep : PyVal × PyVal → Option (String × Int)
  | (.str ks, v) =>
    match pyInt v with
    | some q => if q < 0 then Option.none else some (ks, q)
    | Option.none => Option.none
  | _ => Option.none

/-- The kept keys of a raw dict, in order. -/
def keptKeys (entries : List (PyVal × PyVal)) : List String :=
  (entries.filterMap sanitizeKeep).map Prod.fst

/-! ### Lemmas about the dictionary primitives -/

theorem nodupKeys_cons {k : String} {v : Int} {rest : Stock}
    (hnd : NodupKeys ((k, v) :: rest)) :
    k ∉ keys rest ∧ NodupKeys rest :=
  List.nodup_cons.mp (show (k :: keys rest).Nodup from hnd)

theorem dictGet_dictSet (s : Stock) (k : String) (v : Int) (k2 : String) :
    dictGet (dictSet s k v) k2 = if k = k2 then some v else dictGet s k2 := by
  induction s with
  | nil => simp [dictGet, dictSet]
  | cons p rest ih =>
    obtain ⟨k', v'⟩ := p
    by_cases hk : k' = k
    · subst hk
      by_cases h2 : k' = k2 <;> simp [dictGet, dictSet, h2]
    · by_cases h2 : k' = k2
      · subst h2
        have hkk : ¬k = k' := fun h => hk h.symm
        simp [dictGet, dictSet, hk, hkk]
      · by_cases h3 : k = k2
        · subst h3
          simp [dictGet, dictSet, hk, h2, ih]
        · simp [dictGet, dictSet, hk, h2, h3, ih]

theorem dictGetD_dictSet (s : Stock) (k : String) (v : Int) (k2 : String) :
    dictGetD (dictSet s k v) k2 0 = if k = k2 then v else dictGetD s k2 0 := by
  unfold dictGetD
  rw [dictGet_dictSet]
  by_cases h : k = k2 <;> simp [h]

theorem dictGet_mem {s : Stock} {k : String} {v : Int}
    (h : dictGet s k = some v) : (k, v) ∈ s := by
  induction s with
  | nil => simp [dictGet] at h
  | cons p rest ih =>
    obtain ⟨k', v'⟩ := p
    by_cases hk : k' = k
    · subst hk
      simp [dictGet] at h
      simp [h]
    · simp [dictGet, hk] at h
      exact List.mem_cons_of_mem _ (ih h)

theorem mem_dictGet {s : Stock} {k : String} {v : Int}
    (hnd : NodupKeys s) (h : (k, v) ∈ s) : dictGet s k = some v := by
  induction s with
  | nil => simp at h
  | cons p rest ih =>
    obtain ⟨k', v'⟩ := p
    have hnd' : NodupKeys rest := (nodupKeys_cons hnd).2
    rcases List.mem_cons.mp h with h1 | h1
    · injection h1 with hk hv
      subst hk
      subst hv
      simp [dictGet]
    · have hk : k' ≠ k := by
        intro hke
        subst hke
        exact (nodupKeys_cons hnd).1 (List.mem_map.mpr ⟨(k', v), h1, rfl⟩)
      simp [dictGet, hk]
      exact ih hnd' h1

theorem dictGet_eq_none_iff (s : Stock) (k : String) :
    dictGet s k = Option.none ↔ k ∉ keys s := by
  induction s with
  | nil => simp [dictGet, keys]
  | cons p rest ih =>
    obtain ⟨k', v'⟩ := p
    have hkeys : keys ((k', v') :: rest) = k' :: keys rest := rfl
    rw [hkeys]
    by_cases hk : k' = k
    · subst hk
      simp [dictGet]
    · have hk' : ¬k = k' := fun h => hk h.symm
      simp [dictGet, hk, hk', ih]

theorem mem_dictSet {s : Stock} {k : String} {v : Int} {p : String × Int}
    (h : p ∈ dictSet s k v) : p = (k, v) ∨ p ∈ s := by
  induction s with
  | nil => simpa [dictSet] using h
  | cons q rest ih =>
    obtain ⟨k', v'⟩ := q
    by_cases hk : k' = k
    · subst hk
      simp [dictSet] at h
      rcases h with h | h
      · exact Or.inl h
      · exact Or.inr (List.mem_cons_of_mem _ h)
    · simp [dictSet, hk] at h
      rcases h with h | h
      · exact Or.inr (by simp [h])
      · rcases ih h with h1 | h1
        · exact Or.inl h1
        · exact Or.inr (List.mem_cons_of_mem _ h1)

theorem mem_dictDel {s : Stock} {k : String} {p : String × Int}
    (h : p ∈ dictDel s k) : p ∈ s := by
  induction s with
  | nil => simp [dictDel] at h
  | cons q rest ih =>
    obtain ⟨k', v'⟩ := q
    by_cases hk : k' = k
    · subst hk
      simp [dictDel] at h
      exact List.mem_cons_of_mem _ h
    · simp [dictDel, hk] at h
      rcases h with h | h
      · simp [h]
      · exact List.mem_cons_of_mem _ (ih h)

theorem dictGet_dictDel_self {s : Stock} {k : String} (hnd : NodupKeys s) :
    dictGet (dictDel s k) k = Option.none := by
  induction s with
  | nil => simp [dictDel, dictGet]
  | cons p rest ih =>
    obtain ⟨k', v'⟩ := p
    have hnd' : NodupKeys rest := (nodupKeys_cons hnd).2
    by_cases hk : k' = k
    · subst hk
      simp [dictDel]
      exact (dictGet_eq_none_iff rest k').mpr (nodupKeys_cons hnd).1
    · simp [dictDel, dictGet, hk, ih hnd']

theorem dictGet_dictDel_ne {s : Stock} {k k2 : String} (h : k2 ≠ k) :
    dictGet (dictDel s k) k2 = dictGet s k2 := by
  induction s with
  | nil => simp [dictDel]
  | cons p rest ih =>
    obtain ⟨k', v'⟩ := p
    by_cases hk : k' = k
    · subst hk
      have h2 : ¬k' = k2 := fun hh => h hh.symm
      simp [dictDel, dictGet, h2]
    · by_cases h2 : k' = k2
      · subst h2
        simp [dictDel, dictGet, hk]
      · simp [dictDel, dictGet, hk, h2, ih]

theorem dictGet_eq_of_perm {l1 l2 : Stock} (hp : l1.Perm l2)
    (hnd : NodupKeys l1) (k : String) : dictGet l1 k = dictGet l2 k := by
  have hnd2 : NodupKeys l2 := by
    unfold NodupKeys keys at hnd ⊢
    exact (hp.map Prod.fst).nodup_iff.mp hnd
  cases h1 : dictGet l1 k with
  | none =>
    cases h2 : dictGet l2 k with
    | none => rfl
    | some v =>
      have : (k, v) ∈ l1 := hp.mem_iff.mpr (dictGet_mem h2)
      rw [mem_dictGet hnd this] at h1
      exact absurd h1 (by simp)
  | some v =>
    exact (mem_dictGet hnd2 (hp.mem_iff.mp (dictGet_mem h1))).symm

/-! ### Behaviour of the operations on valid arguments -/

theorem add_item_valid (s : Stock) (it : String) (q : Int)
    (h1 : it ≠ "") (h2 : 0 ≤ q) :
    add_item s (.str it) (.int q) =
      (.ok (), dictSet s it (dictGetD s it 0 + q)) := by
  simp [add_item, h1, isPyInt, pyIntVal, not_lt.mpr h2]

theorem addAll_cons (s : Stock) (i : String) (q : Int) (ops : List (String × Int)) :
    addAll s ((i, q) :: ops) = addAll (add_item s (.str i) (.int q)).2 ops := rfl

theorem get_qty_valid (s : Stock) (it : String) (h : it ≠ "") :
    get_qty s (.str it) = .ok (dictGetD s it 0) := by
  simp [get_qty, h]

theorem get_qty_addAll (ops : List (String × Int)) :
    ∀ s : Stock, (∀ op ∈ ops, op.1 ≠ "" ∧ 0 ≤ op.2) → ∀ item : String,
      dictGetD (addAll s ops) item 0 = dictGetD s item 0 + sumFor item ops := by
  induction ops with
  | nil =>
    intro s _ item
    simp [addAll, sumFor]
  | cons op rest ih =>
    intro s hv item
    obtain ⟨i, q⟩ := op
    have hop := hv (i, q) (List.mem_cons_self _ _)
    rw [addAll_cons, add_item_valid s i q hop.1 hop.2,
      ih _ (fun o ho => hv o (List.mem_cons_of_mem _ ho)) item,
      dictGetD_dictSet]
    by_cases h : i = item
    · subst h
      simp [sumFor]
      ring
    · simp [sumFor, h]

/-! ### Claim theorems -/

/-- C1: for every non-empty string item and every integer qty ≥ 0, a valid
`add_item` call succeeds and increments the stored quantity for the item by
qty (an absent entry counting as 0, so it is created at qty); consequently,
after any sequence of such adds starting from the empty stock, `get_qty`
returns the sum of all quantities added for that item. -/
theorem C1_add_then_get_qty_sums (it : String) (q : Int)
    (hit : it ≠ "") (hq : 0 ≤ q) :
    (∀ s : Stock,
      add_item s (.str it) (.int q) =
        (.ok (), dictSet s it (dictGetD s it 0 + q)) ∧
      dictGetD (add_item s (.str it) (.int q)).2 it 0 = dictGetD s it 0 + q) ∧
    (∀ ops : List (String × Int), (∀ op ∈ ops, op.1 ≠ "" ∧ 0 ≤ op.2) →
      get_qty (addAll [] ops) (.str it) = .ok (sumFor it ops)) := by
  constructor
  · intro s
    refine ⟨add_item_valid s it q hit hq, ?_⟩
    rw [add_item_valid s it q hit hq]
    simp [dictGetD_dictSet]
  · intro ops hv
    rw [get_qty_valid _ it hit, get_qty_addAll ops [] hv it]
    simp [dictGetD, dictGet]

theorem C1_witness :
    "apple" ≠ "" ∧ (0 : Int) ≤ 2 ∧
    get_qty (addAll [] [("apple", 2), ("pear", 7), ("apple", 3)]) (.str "apple")
      = .ok (sumFor "apple" [("apple", 2), ("pear", 7), ("apple", 3)]) :=
  ⟨by decide, by decide,
    (C1_add_then_get_qty_sums "apple" 2 (by decide) (by decide)).2
      [("apple", 2), ("pear", 7), ("apple", 3)] (by decide)⟩

/-- C2: for a non-empty string item and integer qty ≥ 0 — on an absent item,
`remove_item` returns `false` and leaves the map unchanged; on a present item
it returns `true` and decrements the stored quantity by qty when qty is less
than the stored quantity, or deletes the entry entirely when the resulting
quantity would be ≤ 0 (that is, when stored ≤ qty), in which case `get_qty`
afterwards returns 0. -/
theorem C2_remove_semantics (s : Stock) (it : String) (q : Int)
    (hnd : NodupKeys s) (hit : it ≠ "") (hq : 0 ≤ q) :
    (dictGet s it = Option.none →
      remove_item s (.str it) (.int q) = (.ok false, s)) ∧
    (∀ v, dictGet s it = some v → q < v →
      remove_item s (.str it) (.int q) = (.ok true, dictSet s it (v - q))) ∧
    (∀ v, dictGet s it = some v → v ≤ q →
      remove_item s (.str it) (.int q) = (.ok true, dictDel s it) ∧
      get_qty (remove_item s (.str it) (.int q)).2 (.str it) = .ok 0) := by
  refine ⟨?_, ?_, ?_⟩
  · intro habs
    simp [remove_item, hit, isPyInt, pyIntVal, not_lt.mpr hq, habs]
  · intro v hv hlt
    simp [remove_item, hit, isPyInt, pyIntVal, not_lt.mpr hq, hv, not_le.mpr hlt]
  · intro v hv hle
    have hrm : remove_item s (.str it) (.int q) = (.ok true, dictDel s it) := by
      simp [remove_item, hit, isPyInt, pyIntVal, not_lt.mpr hq, hv, hle]
    refine ⟨hrm, ?_⟩
    rw [hrm, get_qty_valid _ it hit]
    simp [dictGetD, dictGet_dictDel_self hnd]

theorem C2_witness :
    NodupKeys [("apple", 5)] ∧ "apple" ≠ "" ∧ (0 : Int) ≤ 5 ∧
    dictGet [("apple", 5)] "apple" = some 5 ∧ (5 : Int) ≤ 5 ∧
    remove_item [("apple", 5)] (.str "apple") (.int 5) =
      (.ok true, dictDel [("apple", 5)] "apple") ∧
    get_qty (remove_item [("apple", 5)] (.str "apple") (.int 5)).2
      (.str "apple") = .ok 0 := by
  refine ⟨by decide, by decide, by decide, rfl, by decide, ?_⟩
  have h := (C2_remove_semantics [("apple", 5)] "apple" 5 (by decide)
    (by decide) (by decide)).2.2 5 rfl (by decide)
  exact ⟨h.1, h.2⟩

/-! ### The sanitization loop of `load_data` -/

theorem sanitizeStep_eq (acc : Stock) (kv : PyVal × PyVal) :
    sanitizeStep acc kv =
      match sanitizeKeep kv with
      | some p => dictSet acc p.1 p.2
      | Option.none => acc := by
  obtain ⟨k, v⟩ := kv
  cases k with
  | str ks =>
    cases hq : pyInt v with
    | none => simp [sanitizeStep, sanitizeKeep, hq]
    | some q => by_cases h : q < 0 <;> simp [sanitizeStep, sanitizeKeep, hq, h]
  | int n => rfl
  | float q => rfl
  | bool b => rfl
  | none => rfl
  | list xs => rfl
  | dict es => rfl

theorem sanitizeKeep_eq_some_iff {kv : PyVal × PyVal} {k : String} {q : Int} :
    sanitizeKeep kv = some (k, q) ↔
      kv.1 = .str k ∧ pyInt kv.2 = some q ∧ 0 ≤ q := by
  obtain ⟨key, v⟩ := kv
  cases key with
  | str ks =>
    cases hq : pyInt v with
    | none => simp [sanitizeKeep, hq]
    | some q' =>
      by_cases h : q' < 0
      · simp only [sanitizeKeep, hq, if_pos h]
        constructor
        · intro hc
          exact absurd hc (by simp)
        · rintro ⟨-, h2, h3⟩
          injection h2 with h4
          omega
      · simp only [sanitizeKeep, hq, if_neg h, Option.some.injEq, Prod.mk.injEq,
          PyVal.str.injEq]
        constructor
        · rintro ⟨h1, h2⟩
          exact ⟨h1, h2, by omega⟩
        · rintro ⟨h1, h2, h3⟩
          exact ⟨h1, h2⟩
  | int n => simp [sanitizeKeep]
  | float qq => simp [sanitizeKeep]
  | bool b => simp [sanitizeKeep]
  | none => simp [sanitizeKeep]
  | list xs => simp [sanitizeKeep]
  | dict es => simp [sanitizeKeep]

theorem sanitizeStep_of_keep_none {kv : PyVal × PyVal}
    (h : sanitizeKeep kv = Option.none) (acc : Stock) :
    sanitizeStep acc kv = acc := by
  rw [sanitizeStep_eq, h]

theorem sanitizeStep_of_keep_some {kv : PyVal × PyVal} {k : String} {q : Int}
    (h : sanitizeKeep kv = some (k, q)) (acc : Stock) :
    sanitizeStep acc kv = dictSet acc k q := by
  rw [sanitizeStep_eq, h]

theorem dictSet_eq_append {s : Stock} {k : String} (hk : k ∉ keys s) (v : Int) :
    dictSet s k v = s ++ [(k, v)] := by
  induction s with
  | nil => rfl
  | cons p rest ih =>
    obtain ⟨k', v'⟩ := p
    have h1 : ¬k' = k := by
      intro h
      exact hk (by simp [keys, h])
    have h2 : k ∉ keys rest := fun h => hk (List.mem_cons_of_mem _ h)
    simp [dictSet, h1, ih h2]

theorem keys_append (s1 s2 : Stock) : keys (s1 ++ s2) = keys s1 ++ keys s2 := by
  simp [keys]

theorem foldl_sanitizeStep_eq_append :
    ∀ (entries : List (PyVal × PyVal)) (acc : Stock),
      (keptKeys entries).Nodup →
      (∀ k ∈ keptKeys entries, k ∉ keys acc) →
      entries.foldl sanitizeStep acc = acc ++ entries.filterMap sanitizeKeep := by
  intro entries
  induction entries with
  | nil =>
    intro acc _ _
    simp
  | cons kv rest ih =>
    intro acc hnd hdisj
    rw [List.foldl_cons]
    cases hkv : sanitizeKeep kv with
    | none =>
      have h1 : keptKeys (kv :: rest) = keptKeys rest := by
        simp [keptKeys, List.filterMap_cons, hkv]
      rw [h1] at hnd hdisj
      rw [sanitizeStep_of_keep_none hkv, List.filterMap_cons, hkv]
      exact ih acc hnd hdisj
    | some p =>
      obtain ⟨k, q⟩ := p
      have h1 : keptKeys (kv :: rest) = k :: keptKeys rest := by
        simp [keptKeys, List.filterMap_cons, hkv]
      rw [h1] at hnd hdisj
      rw [sanitizeStep_of_keep_some hkv]
      have hknotacc : k ∉ keys acc := hdisj k (List.mem_cons_self _ _)
      have hndr := (List.nodup_cons.mp hnd).2
      have hknotrest := (List.nodup_cons.mp hnd).1
      have hdisj' : ∀ k2 ∈ keptKeys rest, k2 ∉ keys (acc ++ [(k, q)]) := by
        intro k2 hk2 hmem
        rw [keys_append] at hmem
        rcases List.mem_append.mp hmem with hmm | hmm
        · exact hdisj k2 (List.mem_cons_of_mem _ hk2) hmm
        · have : k2 = k := by simpa [keys] using hmm
          subst this
          exact hknotrest hk2
      rw [dictSet_eq_append hknotacc, ih (acc ++ [(k, q)]) hndr hdisj',
        List.filterMap_cons, hkv, List.append_assoc]
      rfl

theorem sanitize_eq_filterMap {entries : List (PyVal × PyVal)}
    (hnd : (keptKeys entries).Nodup) :
    sanitize entries = entries.filterMap sanitizeKeep := by
  have h := foldl_sanitizeStep_eq_append entries [] hnd
    (by intro k _ hc; simp [keys] at hc)
  simpa [sanitize] using h

theorem str_mem_of_mem_keptKeys :
    ∀ {entries : List (PyVal × PyVal)} {k : String},
      k ∈ keptKeys entries → PyVal.str k ∈ entries.map Prod.fst := by
  intro entries
  induction entries with
  | nil =>
    intro k h
    simp [keptKeys] at h
  | cons kv rest ih =>
    intro k h
    cases hkv : sanitizeKeep kv with
    | none =>
      have h1 : keptKeys (kv :: rest) = keptKeys rest := by
        simp [keptKeys, List.filterMap_cons, hkv]
      rw [h1] at h
      exact List.mem_cons_of_mem _ (ih h)
    | some p =>
      obtain ⟨k', q⟩ := p
      have h1 : keptKeys (kv :: rest) = k' :: keptKeys rest := by
        simp [keptKeys, List.filterMap_cons, hkv]
      rw [h1] at h
      rcases List.mem_cons.mp h with h2 | h2
      · subst h2
        have hkey : kv.1 = .str k := (sanitizeKeep_eq_some_iff.mp hkv).1
        exact List.mem_cons.mpr (Or.inl hkey.symm)
      · exact List.mem_cons_of_mem _ (ih h2)

theorem keptKeys_nodup :
    ∀ {entries : List (PyVal × PyVal)},
      (entries.map Prod.fst).Nodup → (keptKeys entries).Nodup := by
  intro entries
  induction entries with
  | nil =>
    intro _
    simp [keptKeys]
  | cons kv rest ih =>
    intro hnd
    have hhead : kv.1 ∉ rest.map Prod.fst := (List.nodup_cons.mp hnd).1
    have hrest := ih (List.nodup_cons.mp hnd).2
    cases hkv : sanitizeKeep kv with
    | none =>
      have h1 : keptKeys (kv :: rest) = keptKeys rest := by
        simp [keptKeys, List.filterMap_cons, hkv]
      rw [h1]
      exact hrest
    | some p =>
      obtain ⟨k', q⟩ := p
      have h1 : keptKeys (kv :: rest) = k' :: keptKeys rest := by
        simp [keptKeys, List.filterMap_cons, hkv]
      rw [h1]
      refine List.nodup_cons.mpr ⟨?_, hrest⟩
      intro hmem
      have hkey : kv.1 = .str k' := (sanitizeKeep_eq_some_iff.mp hkv).1
      exact hhead (hkey ▸ str_mem_of_mem_keptKeys hmem)

theorem nonneg_foldl_sanitizeStep :
    ∀ (entries : List (PyVal × PyVal)) (acc : Stock),
      NonnegStock acc → NonnegStock (entries.foldl sanitizeStep acc) := by
  intro entries
  induction entries with
  | nil =>
    intro acc h
    simpa using h
  | cons kv rest ih =>
    intro acc h
    rw [List.foldl_cons]
    cases hkv : sanitizeKeep kv with
    | none =>
      rw [sanitizeStep_of_keep_none hkv]
      exact ih acc h
    | some p =>
      obtain ⟨k, q⟩ := p
      rw [sanitizeStep_of_keep_some hkv]
      refine ih _ ?_
      intro p2 hp2
      rcases mem_dictSet hp2 with h2 | h2
      · subst h2
        exact (sanitizeKeep_eq_some_iff.mp hkv).2.2
      · exact h p2 h2

/-- C3 counterexample: the sanitization of `load_data` keeps an entry whose
key is the empty string (the source only checks `isinstance(key, str)`) and
keeps a float value `5/2` as the truncated integer `2` (since `int(2.5)`
succeeds), so it is not true that an entry is kept only if its key is a
non-empty string and its value a non-negative integer. -/
theorem C3_counterexample :
    load_data [] (.ok (.dict [(.str "", .int 1),
      (.str "a", .float (ratMk 5 2 (by decide) (by decide)))]))
      = [("", 1), ("a", 2)] := rfl

/-- C3 (amended): on a successful load the stock map is replaced by exactly
the sanitized entries of the loaded object (every prior entry is discarded),
and — for an object without duplicate keys — an entry `(k, q)` is in the
result iff the file object maps the string key `k` (of any length, empty
allowed) to a value `v` on which Python's `int(v)` succeeds with the
non-negative result `q` (so ints are kept as-is, floats are truncated toward
zero, bools count as 0/1 and numeric strings parse); in particular loading
`{"x": -1, "y": "bad", 5: 1}` skips all three entries and leaves the stock
map empty. -/
theorem C3_load_replaces_with_sanitized (s : Stock)
    (entries : List (PyVal × PyVal)) (hnd : (entries.map Prod.fst).Nodup) :
    load_data s (.ok (.dict entries)) = entries.filterMap sanitizeKeep ∧
    (∀ (k : String) (q : Int),
      (k, q) ∈ load_data s (.ok (.dict entries)) ↔
        ∃ v, (.str k, v) ∈ entries ∧ pyInt v = some q ∧ 0 ≤ q) ∧
    load_data s (.ok (.dict
      [(.str "x", .int (-1)), (.str "y", .str "bad"), (.int 5, .int 1)]))
      = [] := by
  have hload : load_data s (.ok (.dict entries))
      = entries.filterMap sanitizeKeep := by
    show sanitize entries = _
    exact sanitize_eq_filterMap (keptKeys_nodup hnd)
  refine ⟨hload, ?_, rfl⟩
  intro k q
  rw [hload, List.mem_filterMap]
  constructor
  · rintro ⟨kv, hmem, hkeep⟩
    obtain ⟨key, v⟩ := kv
    obtain ⟨h1, h2, h3⟩ := sanitizeKeep_eq_some_iff.mp hkeep
    exact ⟨v, h1 ▸ hmem, h2, h3⟩
  · rintro ⟨v, hmem, h2, h3⟩
    exact ⟨(.str k, v), hmem, sanitizeKeep_eq_some_iff.mpr ⟨rfl, h2, h3⟩⟩

theorem C3_witness :
    ([(PyVal.str "", PyVal.int 7)].map Prod.fst).Nodup ∧
    (("", 7) ∈ load_data [("old", 3)] (.ok (.dict [(.str "", .int 7)])) ↔
      ∃ v, (PyVal.str "", v) ∈ [(PyVal.str "", PyVal.int 7)] ∧
        pyInt v = some 7 ∧ (0 : Int) ≤ 7) :=
  ⟨List.nodup_singleton _,
    (C3_load_replaces_with_sanitized [("old", 3)] [(.str "", .int 7)]
      (List.nodup_singleton _)).2.1 "" 7⟩

/-- C4 counterexample: `add_item("a", 0)` on an empty stock stores the entry
`("a", 0)`, so after an operation the map can contain an entry with quantity
0, contradicting the claimed invariant that no entry with quantity ≤ 0 ever
exists. -/
theorem C4_counterexample :
    (add_item [] (.str "a") (.int 0)).2 = [("a", 0)] ∧
    ("a", 0) ∈ (add_item [] (.str "a") (.int 0)).2 :=
  ⟨rfl, by decide⟩

/-- C4 (amended): after every operation (`add_item`, `remove_item`,
`load_data`) applied to a stock whose quantities are all non-negative, all
quantities remain non-negative — no entry with a negative quantity can ever
be stored.  (Entries with quantity exactly 0 can exist: `add_item` with qty 0
creates one, and `load_data` keeps 0-valued file entries, which is what the
counterexample shows.) -/
theorem C4_nonneg_invariant (s : Stock) (item qty : PyVal) (r : ReadResult)
    (h : NonnegStock s) :
    NonnegStock (add_item s item qty).2 ∧
    NonnegStock (remove_item s item qty).2 ∧
    NonnegStock (load_data s r) := by
  refine ⟨?_, ?_, ?_⟩
  · cases item with
    | str it =>
      by_cases h1 : it = ""
      · simpa [add_item, h1] using h
      · by_cases h2 : isPyInt qty = false
        · simpa [add_item, h1, h2] using h
        · by_cases h3 : pyIntVal qty < 0
          · simpa [add_item, h1, h2, h3] using h
          · rw [show (add_item s (.str it) qty).2
                = dictSet s it (dictGetD s it 0 + pyIntVal qty) by
              simp [add_item, h1, h2, h3]]
            intro p hp
            rcases mem_dictSet hp with h4 | h4
            · subst h4
              have hd : 0 ≤ dictGetD s it 0 := by
                unfold dictGetD
                cases hg : dictGet s it with
                | none => simp
                | some v => simpa using h _ (dictGet_mem hg)
              have hq : 0 ≤ pyIntVal qty := not_lt.mp h3
              show (0 : Int) ≤ dictGetD s it 0 + pyIntVal qty
              omega
            · exact h p h4
    | int n => simpa [add_item] using h
    | float q => simpa [add_item] using h
    | bool b => simpa [add_item] using h
    | none => simpa [add_item] using h
    | list xs => simpa [add_item] using h
    | dict es => simpa [add_item] using h
  · cases item with
    | str it =>
      by_cases h1 : it = ""
      · simpa [remove_item, h1] using h
      · by_cases h2 : isPyInt qty = false
        · simpa [remove_item, h1, h2] using h
        · by_cases h3 : pyIntVal qty < 0
          · simpa [remove_item, h1, h2, h3] using h
          · cases hg : dictGet s it with
            | none => simpa [remove_item, h1, h2, h3, hg] using h
            | some v =>
              by_cases h4 : v ≤ pyIntVal qty
              · rw [show (remove_item s (.str it) qty).2 = dictDel s it by
                  simp [remove_item, h1, h2, h3, hg, h4]]
                intro p hp
                exact h p (mem_dictDel hp)
              · rw [show (remove_item s (.str it) qty).2
                    = dictSet s it (v - pyIntVal qty) by
                  simp [remove_item, h1, h2, h3, hg, h4]]
                intro p hp
                rcases mem_dictSet hp with h5 | h5
                · subst h5
                  show (0 : Int) ≤ v - pyIntVal qty
                  omega
                · exact h p h5
    | int n => simpa [remove_item] using h
    | float q => simpa [remove_item] using h
    | bool b => simpa [remove_item] using h
    | none => simpa [remove_item] using h
    | list xs => simpa [remove_item] using h
    | dict es => simpa [remove_item] using h
  · cases r with
    | fileNotFound => exact h
    | jsonError => exact h
    | osError => exact h
    | ok v =>
      cases v with
      | dict entries =>
        exact nonneg_foldl_sanitizeStep entries [] (by intro p hp; simp at hp)
      | str t => exact h
      | int n => exact h
      | float q => exact h
      | bool b => exact h
      | none => exact h
      | list xs => exact h

theorem C4_witness :
    NonnegStock [("apple", 3)] ∧
    NonnegStock (add_item [("apple", 3)] (.str "pear") (.int 2)).2 ∧
    NonnegStock (remove_item [("apple", 3)] (.str "pear") (.int 2)).2 ∧
    NonnegStock (load_data [("apple", 3)] .fileNotFound) := by
  have h := C4_nonneg_invariant [("apple", 3)] (.str "pear") (.int 2)
    .fileNotFound (by decide)
  exact ⟨by decide, h.1, h.2.1, h.2.2⟩

theorem filterMap_sanitizeKeep_encode :
    ∀ l : Stock, NonnegStock l →
      l.filterMap (fun p => sanitizeKeep (PyVal.str p.1, PyVal.int p.2)) = l := by
  intro l
  induction l with
  | nil =>
    intro _
    rfl
  | cons p rest ih =>
    intro h
    have h0 : 0 ≤ p.2 := h p (List.mem_cons_self _ _)
    have hkeep : sanitizeKeep (PyVal.str p.1, PyVal.int p.2) = some (p.1, p.2) := by
      simp [sanitizeKeep, pyInt, not_lt.mpr h0]
    rw [List.filterMap_cons, hkeep,
      ih (fun p2 hp2 => h p2 (List.mem_cons_of_mem _ hp2))]

/-- C5: saving any stock map whose quantities are all non-negative and then
loading the written file reproduces an equivalent map — every key is mapped
to the same quantity as before, whatever the stock contents were before the
load. -/
theorem C5_save_load_roundtrip (s s0 : Stock) (hnd : NodupKeys s)
    (hnn : NonnegStock s) (k : String) :
    dictGet (load_data s0 (.ok (save_data s))) k = dictGet s k := by
  have hperm : (List.insertionSort (fun a b : String × Int => strLe a.1 b.1) s).Perm s :=
    List.perm_insertionSort _ s
  set t := List.insertionSort (fun a b : String × Int => strLe a.1 b.1) s with ht
  have hndt : NodupKeys t := ((hperm.map Prod.fst).nodup_iff).mpr hnd
  have hnnt : NonnegStock t := fun p hp => hnn p (hperm.mem_iff.mp hp)
  have hmapnd : ((t.map (fun p : String × Int =>
      ((PyVal.str p.1 : PyVal), (PyVal.int p.2 : PyVal)))).map Prod.fst).Nodup := by
    rw [List.map_map]
    have : (Prod.fst ∘ fun p : String × Int =>
        ((PyVal.str p.1 : PyVal), (PyVal.int p.2 : PyVal)))
        = PyVal.str ∘ Prod.fst := rfl
    rw [this, ← List.map_map]
    exact hndt.map (fun a b hab => by injection hab)
  have hsan : load_data s0 (.ok (save_data s)) = t := by
    show sanitize (t.map fun p => ((PyVal.str p.1 : PyVal), (PyVal.int p.2 : PyVal))) = t
    rw [sanitize_eq_filterMap (keptKeys_nodup hmapnd), List.filterMap_map]
    exact filterMap_sanitizeKeep_encode t hnnt
  rw [hsan]
  exact dictGet_eq_of_perm hperm hndt k

theorem C5_witness :
    NodupKeys [("b", 2), ("a", 1)] ∧ NonnegStock [("b", 2), ("a", 1)] ∧
    dictGet (load_data [("z", 9)] (.ok (save_data [("b", 2), ("a", 1)]))) "a"
      = dictGet [("b", 2), ("a", 1)] "a" :=
  ⟨by decide, by decide,
    C5_save_load_roundtrip [("b", 2), ("a", 1)] [("z", 9)]
      (by decide) (by decide) "a"⟩

/-- C6: when `load_data` fails before producing a sanitized result — the
file is missing, the JSON is malformed, another I/O error occurs, or the
top-level value is not a dict — no exception reaches the caller (each branch
is a plain `return`, which the total embedding reflects) and the existing
stock map is left completely unchanged. -/
theorem C6_load_failure_leaves_stock (s : Stock) :
    load_data s .fileNotFound = s ∧ load_data s .jsonError = s ∧
    load_data s .osError = s ∧
    (∀ v : PyVal, isPyDict v = false → load_data s (.ok v) = s) := by
  refine ⟨rfl, rfl, rfl, ?_⟩
  intro v hv
  cases v with
  | dict es => simp [isPyDict] at hv
  | str t => rfl
  | int n => rfl
  | float q => rfl
  | bool b => rfl
  | none => rfl
  | list xs => rfl

theorem C6_witness :
    isPyDict (.list []) = false ∧
    load_data [("apple", 7)] (.ok (.list [])) = [("apple", 7)] :=
  ⟨rfl, (C6_load_failure_leaves_stock [("apple", 7)]).2.2.2 (.list []) rfl⟩

/-- C7 counterexample: loading an entry whose value is the float `5/2 = 2.5`
does not discard it — `int(2.5)` succeeds with `2`, so the entry is stored
with the truncated quantity `2`, contradicting the claim that numeric
non-integer values are skipped. -/
theorem C7_counterexample :
    load_data [] (.ok (.dict [(.str "a",
      .float (ratMk 5 2 (by decide) (by decide)))])) = [("a", 2)] := rfl

/-- C7 (amended): during load, an entry whose value is a float is not
skipped: its value is truncated toward zero by `int()` and the entry is
stored with that integer whenever the truncation is non-negative; it is
skipped only when the truncated value is negative. -/
theorem C7_float_truncated (k : String) (q : Rat) :
    (0 ≤ q.num.tdiv (q.den : Int) →
      load_data [] (.ok (.dict [(.str k, .float q)]))
        = [(k, q.num.tdiv (q.den : Int))]) ∧
    (q.num.tdiv (q.den : Int) < 0 →
      load_data [] (.ok (.dict [(.str k, .float q)])) = []) := by
  constructor
  · intro h
    show sanitize [(.str k, .float q)] = _
    simp [sanitize, sanitizeStep, pyInt, not_lt.mpr h, dictSet]
  · intro h
    show sanitize [(.str k, .float q)] = _
    simp [sanitize, sanitizeStep, pyInt, h]

theorem C7_witness :
    0 ≤ (ratMk 5 2 (by decide) (by decide)).num.tdiv
      (((ratMk 5 2 (by decide) (by decide)).den : Nat) : Int) ∧
    load_data [] (.ok (.dict [(.str "c",
        .float (ratMk 5 2 (by decide) (by decide)))]))
      = [("c", (ratMk 5 2 (by decide) (by decide)).num.tdiv
          (((ratMk 5 2 (by decide) (by decide)).den : Nat) : Int))] :=
  ⟨by decide, (C7_float_truncated "c" (ratMk 5 2 (by decide) (by decide))).1
    (by decide)⟩

/-- C8: `add_item` fails with a synchronously raised `TypeError`/`ValueError`
(the spec's `InvalidArgument`) whenever the item argument is not a string or
is the empty string, or the qty argument is not an `int` in Python's
`isinstance` sense or is negative — and the stock is left unchanged; in
particular `add("", 1)` and `add("apple", -1)` both fail. -/
theorem C8_add_invalid_arguments (s : Stock) (item qty : PyVal)
    (h : isPyStr item = false ∨ pyStr item = "" ∨ isPyInt qty = false ∨
      pyIntVal qty < 0) :
    (∃ e, add_item s item qty = (.error e, s)) ∧
    add_item s (.str "") (.int 1)
      = (.error (.typeError "Item must be a non-empty string."), s) ∧
    add_item s (.str "apple") (.int (-1))
      = (.error (.valueError "Quantity must be non-negative."), s) := by
  refine ⟨?_, rfl, rfl⟩
  cases item with
  | str it =>
    by_cases h1 : it = ""
    · exact ⟨.typeError "Item must be a non-empty string.", by simp [add_item, h1]⟩
    · by_cases h2 : isPyInt qty = false
      · exact ⟨.typeError "Quantity must be an integer.", by simp [add_item, h1, h2]⟩
      · have h3 : pyIntVal qty < 0 := by
          rcases h with h | h | h | h
          · simp [isPyStr] at h
          · exact absurd h h1
          · exact absurd h h2
          · exact h
        exact ⟨.valueError "Quantity must be non-negative.",
          by simp [add_item, h1, h2, h3]⟩
  | int n => exact ⟨.typeError "Item must be a non-empty string.", rfl⟩
  | float q => exact ⟨.typeError "Item must be a non-empty string.", rfl⟩
  | bool b => exact ⟨.typeError "Item must be a non-empty string.", rfl⟩
  | none => exact ⟨.typeError "Item must be a non-empty string.", rfl⟩
  | list xs => exact ⟨.typeError "Item must be a non-empty string.", rfl⟩
  | dict es => exact ⟨.typeError "Item must be a non-empty string.", rfl⟩

theorem C8_witness :
    pyStr (.str "") = "" ∧
    (∃ e, add_item [("z", 1)] (.str "") (.int 1) = (.error e, [("z", 1)])) :=
  ⟨rfl, (C8_add_invalid_arguments [("z", 1)] (.str "") (.int 1)
    (Or.inr (Or.inl rfl))).1⟩

/-- C9: for an integer threshold n ≥ 0, `check_low_items` succeeds without
touching the stock and returns exactly the item names whose stored quantity
is strictly less than n (an item is in the result iff its quantity is below
n); on the demo stock `{"apple": 10, "banana": 2, "grape": 12}` with
threshold 5 it returns exactly `["banana"]`; and it fails with a
`TypeError`/`ValueError` (the spec's `InvalidArgument`) for a non-integer or
negative threshold. -/
theorem C9_check_low_items_spec (s : Stock) (n : Int)
    (hnd : NodupKeys s) (hn : 0 ≤ n) :
    (∃ l, check_low_items s (.int n) = (.ok l, s) ∧
      ∀ i, i ∈ l ↔ ∃ q, dictGet s i = some q ∧ q < n) ∧
    check_low_items [("apple", 10), ("banana", 2), ("grape", 12)] (.int 5)
      = (.ok ["banana"], [("apple", 10), ("banana", 2), ("grape", 12)]) ∧
    (∀ t : PyVal, isPyInt t = false ∨ pyIntVal t < 0 →
      ∃ e, check_low_items s t = (.error e, s)) := by
  refine ⟨?_, rfl, ?_⟩
  · refine ⟨(s.filter (fun p => p.2 < n)).map Prod.fst, ?_, ?_⟩
    · simp [check_low_items, isPyInt, pyIntVal, not_lt.mpr hn]
    · intro i
      constructor
      · intro hi
        obtain ⟨p, hp, hpi⟩ := List.mem_map.mp hi
        obtain ⟨k, q⟩ := p
        obtain ⟨hps, hplt⟩ := List.mem_filter.mp hp
        have hki : k = i := hpi
        subst hki
        exact ⟨q, mem_dictGet hnd hps, by simpa using hplt⟩
      · rintro ⟨q, hget, hlt⟩
        refine List.mem_map.mpr ⟨(i, q),
          List.mem_filter.mpr ⟨dictGet_mem hget, ?_⟩, rfl⟩
        simpa using hlt
  · intro t ht
    by_cases h2 : isPyInt t = false
    · exact ⟨.typeError "Threshold must be an integer.",
        by simp [check_low_items, h2]⟩
    · have h3 : pyIntVal t < 0 := by
        rcases ht with ht | ht
        · exact absurd ht h2
        · exact ht
      exact ⟨.valueError "Threshold must be non-negative.",
        by simp [check_low_items, h2, h3]⟩

theorem C9_witness :
    NodupKeys [("apple", 10), ("banana", 2), ("grape", 12)] ∧ (0 : Int) ≤ 5 ∧
    check_low_items [("apple", 10), ("banana", 2), ("grape", 12)] (.int 5)
      = (.ok ["banana"], [("apple", 10), ("banana", 2), ("grape", 12)]) :=
  ⟨by decide, by decide,
    (C9_check_low_items_spec [("apple", 10), ("banana", 2), ("grape", 12)] 5
      (by decide) (by decide)).2.1⟩

/-- C10: whenever `add_item`, `remove_item` or `check_low_items` raises a
validation error for invalid arguments, the stock map is left completely
unchanged — every validation check happens before any mutation
(`check_low_items` in fact never mutates the stock at all). -/
theorem C10_validation_failure_leaves_stock (s : Stock) (item qty t : PyVal) :
    (∀ e, (add_item s item qty).1 = .error e → (add_item s item qty).2 = s) ∧
    (∀ e, (remove_item s item qty).1 = .error e →
      (remove_item s item qty).2 = s) ∧
    (check_low_items s t).2 = s := by
  refine ⟨?_, ?_, ?_⟩
  · intro e he
    cases item with
    | str it =>
      by_cases h1 : it = ""
      · simp [add_item, h1]
      · by_cases h2 : isPyInt qty = false
        · simp [add_item, h1, h2]
        · by_cases h3 : pyIntVal qty < 0
          · simp [add_item, h1, h2, h3]
          · simp [add_item, h1, h2, h3] at he
    | int n => rfl
    | float q => rfl
    | bool b => rfl
    | none => rfl
    | list xs => rfl
    | dict es => rfl
  · intro e he
    cases item with
    | str it =>
      by_cases h1 : it = ""
      · simp [remove_item, h1]
      · by_cases h2 : isPyInt qty = false
        · simp [remove_item, h1, h2]
        · by_cases h3 : pyIntVal qty < 0
          · simp [remove_item, h1, h2, h3]
          · cases hg : dictGet s it with
            | none => simp [remove_item, h1, h2, h3, hg] at he
            | some v =>
              by_cases h4 : v ≤ pyIntVal qty
              · simp [remove_item, h1, h2, h3, hg, h4] at he
              · simp [remove_item, h1, h2, h3, hg, h4] at he
    | int n => rfl
    | float q => rfl
    | bool b => rfl
    | none => rfl
    | list xs => rfl
    | dict es => rfl
  · by_cases h1 : isPyInt t = false
    · simp [check_low_items, h1]
    · by_cases h2 : pyIntVal t < 0
      · simp [check_low_items, h1, h2]
      · simp [check_low_items, h1, h2]

theorem C10_witness :
    (add_item [("k", 1)] (.int 0) (.int 1)).1
      = .error (.typeError "Item must be a non-empty string.") ∧
    (add_item [("k", 1)] (.int 0) (.int 1)).2 = [("k", 1)] ∧
    (remove_item [("k", 1)] (.str "") (.int 1)).1
      = .error (.typeError "Item must be a non-empty string.") ∧
    (remove_item [("k", 1)] (.str "") (.int 1)).2 = [("k", 1)] ∧
    (check_low_items [("k", 1)] (.int (-3))).2 = [("k", 1)] := by
  have h := C10_validation_failure_leaves_stock [("k", 1)] (.int 0) (.int 1)
    (.int (-3))
  have h2 := C10_validation_failure_leaves_stock [("k", 1)] (.str "") (.int 1)
    (.int (-3))
  exact ⟨rfl, h.1 _ rfl, rfl, h2.2.1 _ rfl, h.2.2⟩

end Inventory


